import Mathlib

/-!
# Verification of the groufix render-graph executor core

A shallow embedding of the parts of groufix (`src/groufix/core/*.c`) that the
verified properties speak about: virtual-frame fence synchronization
(`frame.c`), the swapchain-index query (`frame.c`), barrier synthesis
(`frame.c`), pass consumption and clear state (`pass.c`), pass creation and
level-sorted insertion (`pass.c`, `renderer.c`), the descriptor pool
(`pool.c`) and the pipeline-cache blob (`cache.c`).

Machine integers are modelled as `Nat` (with explicit truncation where the C
code truncates); Vulkan handles are opaque `Nat`s; fallible allocation paths
that only report out-of-memory are modelled as always succeeding.
-/

namespace Groufix

/-! ## Virtual frame: fence synchronization (`frame.c`, `_gfx_frame_sync` and
`_gfx_frame_clear`)

`frame->submitted` is a flag field with two distinct bits
(`_GFX_FRAME_GRAPHICS`, `_GFX_FRAME_COMPUTE`); we model it as two booleans. -/

/-- The `frame->submitted` flags field: which queues the frame submitted on. -/
structure Submitted where
  graphics : Bool
  compute  : Bool
deriving DecidableEq

/-- The two fences of a virtual frame. -/
inductive Fence where
  | graphics
  | compute
deriving DecidableEq

/-- `numFences` exactly as the C expression in `_gfx_frame_sync` (and
`_gfx_frame_clear`) evaluates:

`(submitted & GRAPHICS) ? 1 : 0 + (submitted & COMPUTE) ? 1 : 0`

C precedence makes `+` bind tighter than `?:`, so this parses as
`(submitted & GRAPHICS) ? 1 : ((0 + (submitted & COMPUTE)) ? 1 : 0)`. -/
def numFences (s : Submitted) : Nat :=
  if s.graphics then 1
  else if 0 + (if s.compute then 1 else 0) ≠ 0 then 1 else 0

/-- `numFences` as the surrounding code plainly intends it (a count of the
submitted queues, matching the two-element `fences` array that follows):
`((submitted & GRAPHICS) ? 1 : 0) + ((submitted & COMPUTE) ? 1 : 0)`. -/
def numFencesIntended (s : Submitted) : Nat :=
  (if s.graphics then 1 else 0) + (if s.compute then 1 else 0)

/-- The `fences` array built in `_gfx_frame_sync` / `_gfx_frame_clear`:
`{ (submitted & GRAPHICS) ? graphics.done : compute.done, compute.done }`. -/
def fencesArray (s : Submitted) : List Fence :=
  [if s.graphics then Fence.graphics else Fence.compute, Fence.compute]

/-- The fences actually passed to `vkWaitForFences`: the first `numFences`
entries of the `fences` array. -/
def waitedFences (s : Submitted) : List Fence :=
  (fencesArray s).take (numFences s)

/-- The fences the claim expects to be waited on: one per queue the frame
actually submitted on. -/
def expectedFences (s : Submitted) : List Fence :=
  (if s.graphics then [Fence.graphics] else []) ++
  (if s.compute then [Fence.compute] else [])

/-! ## Virtual frame: swapchain-index query (`frame.c`,
`_gfx_frame_get_swapchain_index`)

A frame holds `refs` (one `size_t` sync reference per attachment index) and
`syncs` (one sync object per window attachment, carrying the acquired
swapchain image index). -/

/-- `UINT32_MAX`. -/
def UINT32_MAX : Nat := 2 ^ 32 - 1

/-- A `_GFXFrameSync` object, restricted to the field the query reads. -/
structure FrameSync where
  /-- Acquired swapchain image index (`UINT32_MAX` when not acquired). -/
  image : Nat
deriving DecidableEq

/-- A virtual frame, restricted to the fields the query reads. -/
structure Frame where
  refs  : List Nat
  syncs : List FrameSync
deriving DecidableEq

/-- `_gfx_frame_get_swapchain_index`: bounds-guarded lookup of the acquired
swapchain image index of the window attachment at `index`. -/
def getSwapchainIndex (f : Frame) (index : Nat) : Nat :=
  if f.refs.length ≤ index then UINT32_MAX
  else
    let syncInd := f.refs.getD index 0
    if f.syncs.length ≤ syncInd then UINT32_MAX
    else (f.syncs.getD syncInd ⟨0⟩).image

/-! ## Consumption records and barrier synthesis (`frame.c`,
`_gfx_frame_push_barrier`; record layout from its uses in `frame.c`/`pass.c`)

`GFXImageAspect` is a bit flag enum (declared in a header not under `src/`);
only bit distinctness matters, we use the standard groufix assignment. -/

def GFX_IMAGE_COLOR : Nat := 1
def GFX_IMAGE_DEPTH : Nat := 2
def GFX_IMAGE_STENCIL : Nat := 4

/-- `VK_REMAINING_MIP_LEVELS` (`~0U`). -/
def VK_REMAINING_MIP_LEVELS : Nat := UINT32_MAX

/-- `VK_REMAINING_ARRAY_LAYERS` (`~0U`). -/
def VK_REMAINING_ARRAY_LAYERS : Nat := UINT32_MAX

/-- `VK_IMAGE_LAYOUT_UNDEFINED`. -/
def VK_IMAGE_LAYOUT_UNDEFINED : Nat := 0

/-- `SIZE_MAX` (64-bit `size_t`). -/
def SIZE_MAX : Nat := 2 ^ 64 - 1

/-- A `GFXFormat`, restricted to its depth/stencil capabilities, which is all
the embedded code inspects (`GFX_FORMAT_HAS_DEPTH`/`GFX_FORMAT_HAS_STENCIL`). -/
structure Format where
  hasDepth : Bool
  hasStencil : Bool
deriving DecidableEq

/-- `GFX_FORMAT_EMPTY`: no aspects at all (picked for window attachments). -/
def GFX_FORMAT_EMPTY : Format := ⟨false, false⟩

/-- `GFX_FORMAT_HAS_DEPTH_OR_STENCIL`. -/
def Format.hasDepthOrStencil (f : Format) : Bool := f.hasDepth || f.hasStencil

/-- The whole-image aspect resolved from the format
(`frame.c`, `_gfx_frame_push_barrier`). -/
def wholeAspect (fmt : Format) : Nat :=
  if fmt.hasDepthOrStencil then
    (if fmt.hasDepth then GFX_IMAGE_DEPTH else 0) |||
    (if fmt.hasStencil then GFX_IMAGE_STENCIL else 0)
  else GFX_IMAGE_COLOR

/-- A `GFXRange` (aspect, mip/layer window; count zero means whole resource). -/
structure GFXRange where
  aspect : Nat
  mipmap : Nat
  numMipmaps : Nat
  layer : Nat
  numLayers : Nat
deriving DecidableEq

/-- A `GFXView` as stored in a consumption (attachment index + range; the
view-type union member is never read by the embedded code paths). -/
structure GFXView where
  index : Nat
  range : GFXRange
deriving DecidableEq

/-- A `GFXBlendOpState`. -/
structure BlendOpState where
  srcFactor : Nat
  dstFactor : Nat
  op : Nat
deriving DecidableEq

/-- A `GFXClear` value; `depth` stands for the 32-bit pattern of the float
member (it is only ever copied, never computed with). -/
structure Clear where
  depth : Nat
  stencil : Nat
deriving DecidableEq

/-- The graph-output (`out`) part of a `_GFXConsume`: initial/final image
layouts and the annotated previous consumption (`none` models `NULL`; the
`Nat` is an opaque token for the pointed-to consumption). -/
structure ConsumeOut where
  initial : Nat
  final : Nat
  prev : Option Nat
deriving DecidableEq

/-- A `_GFXConsume` record, with every field the `src/` code reads or
writes. `flags` carries the `_GFX_CONSUME_VIEWED`/`_GFX_CONSUME_BLEND` bits. -/
structure Consume where
  flags : Nat
  mask : Nat
  stage : Nat
  view : GFXView
  cleared : Nat
  clear : Clear
  color : BlendOpState
  alpha : BlendOpState
  resolve : Nat
  out : ConsumeOut
deriving DecidableEq

/-- `_GFX_CONSUME_VIEWED` flag bit (distinct bit; exact value immaterial). -/
def CONSUME_VIEWED : Nat := 1

/-- `_GFX_CONSUME_BLEND` flag bit (distinct bit; exact value immaterial). -/
def CONSUME_BLEND : Nat := 2

/-- Modelled from the spec: `GFX_ACCESS_WRITES` is declared in a header not
under `src/`; per the spec a consumption "has a write" iff its access mask
contains one of the write accesses of `GFXAccessMask` (`deps.h`):
`STORAGE_WRITE` (0x40), `ATTACHMENT_WRITE` (0x200), `TRANSFER_WRITE` (0x800),
`HOST_WRITE` (0x2000). -/
def GFX_ACCESS_WRITES (mask : Nat) : Bool :=
  mask &&& (0x40 ||| 0x200 ||| 0x800 ||| 0x2000) ≠ 0

/-- The access→stage/access-flag expansion tables and the context stage
modifier, declared in headers not under `src/` (the spec calls them
standard-Vulkan-mechanical); kept abstract, the theorems hold for any
choice. -/
structure VkTables where
  /-- `_GFX_GET_VK_PIPELINE_STAGE (mask, stage, fmt)`. -/
  pipelineStage : Nat → Nat → Format → Nat
  /-- `_GFX_MOD_VK_PIPELINE_STAGE (stages, context)`. -/
  modStage : Nat → Nat
  /-- `_GFX_GET_VK_ACCESS_FLAGS (mask, fmt)`. -/
  accessFlags : Nat → Format → Nat
  /-- `_GFX_GET_VK_IMAGE_ASPECT (aspect)`. -/
  imageAspect : Nat → Nat

/-- An attachment as read by `_gfx_frame_push_barrier`: an image attachment
(format + Vulkan image handle) or a window attachment (its swapchain images,
`at->window.window->frame.images`). -/
inductive Attach where
  | image (fmt : Format) (img : Nat)
  | window (images : List Nat)
deriving DecidableEq

/-- A `VkImageSubresourceRange`. -/
structure SubresourceRange where
  aspectMask : Nat
  baseMipLevel : Nat
  baseArrayLayer : Nat
  levelCount : Nat
  layerCount : Nat
deriving DecidableEq

/-- A `VkImageMemoryBarrier` (the fields `_gfx_frame_push_barrier` fills;
both queue-family indices are always `VK_QUEUE_FAMILY_IGNORED`). -/
structure ImageMemoryBarrier where
  srcAccessMask : Nat
  dstAccessMask : Nat
  oldLayout : Nat
  newLayout : Nat
  image : Nat
  subresourceRange : SubresourceRange
deriving DecidableEq

/-- What `_gfx_frame_push_barrier` pushes into the injection on success. -/
inductive BarrierPush where
  /-- Execution-only barrier: stage masks, no image memory barrier. -/
  | exec (srcStageMask dstStageMask : Nat)
  /-- Full image memory barrier. -/
  | image (srcStageMask dstStageMask : Nat) (imb : ImageMemoryBarrier)
  /-- Nothing pushed: window attachment whose swapchain image index is not a
  valid position in its image list ("silently ignore non-existent"). -/
  | skip
deriving DecidableEq

/-- The format `_gfx_frame_push_barrier` resolves for the attachment: the
image format, or `GFX_FORMAT_EMPTY` for windows. -/
def attachFormat (att : Attach) : Format :=
  match att with
  | .image f _ => f
  | .window _ => GFX_FORMAT_EMPTY

/-- The merged `VkImageSubresourceRange` `_gfx_frame_push_barrier` computes
from the two consumptions ("we assume they overlap and merge the ranges"). -/
def mergedSubresource (T : VkTables) (fmt : Format) (prev con : Consume) :
    SubresourceRange :=
  let baseMip := min prev.view.range.mipmap con.view.range.mipmap
  let baseLayer := min prev.view.range.layer con.view.range.layer
  { aspectMask :=
      (T.imageAspect prev.view.range.aspect |||
       T.imageAspect con.view.range.aspect) &&& wholeAspect fmt
    baseMipLevel := baseMip
    baseArrayLayer := baseLayer
    levelCount :=
      if prev.view.range.numMipmaps = 0 ∨ con.view.range.numMipmaps = 0 then
        VK_REMAINING_MIP_LEVELS
      else
        max (prev.view.range.numMipmaps + (prev.view.range.mipmap - baseMip))
            (con.view.range.numMipmaps + (con.view.range.mipmap - baseMip))
    layerCount :=
      if prev.view.range.numLayers = 0 ∨ con.view.range.numLayers = 0 then
        VK_REMAINING_ARRAY_LAYERS
      else
        max (prev.view.range.numLayers + (prev.view.range.layer - baseLayer))
            (con.view.range.numLayers + (con.view.range.layer - baseLayer)) }

/-- `_gfx_frame_push_barrier` (`frame.c`): the barrier pushed for consumption
`con` with annotated previous consumption `prev` of attachment `att` at
`con.view.index`. Allocation failure of the injection output is not
modelled. -/
def pushBarrier (T : VkTables) (att : Attach) (frame : Frame)
    (prev con : Consume) : BarrierPush :=
  let fmt := attachFormat att
  let srcStageMask := T.pipelineStage prev.mask prev.stage fmt
  let dstStageMask := T.pipelineStage con.mask con.stage fmt
  let srcWrites := GFX_ACCESS_WRITES prev.mask
  let transition := prev.out.final ≠ con.out.initial
  if ¬srcWrites ∧ ¬transition then
    .exec (T.modStage srcStageMask) (T.modStage dstStageMask)
  else
    let vkImage : Option Nat := match att with
      | .image _ img => some img
      | .window images =>
          let imageInd := getSwapchainIndex frame con.view.index
          if images.length ≤ imageInd then none
          else some (images.getD imageInd 0)
    match vkImage with
    | none => .skip
    | some img =>
      .image (T.modStage srcStageMask) (T.modStage dstStageMask)
        { srcAccessMask := T.accessFlags prev.mask fmt
          dstAccessMask := T.accessFlags con.mask fmt
          oldLayout := prev.out.final
          newLayout := con.out.initial
          image := img
          subresourceRange := mergedSubresource T fmt prev con }

/-! ## Pass consumption bookkeeping (`pass.c`, `_gfx_pass_consume`,
`gfx_pass_clear`)

A pass's consumption vector is a list of `Consume` records; consumption
edits search it backwards (`for i = size; i > 0; --i`) for the attachment
index. Enum default values (`GFX_FACTOR_ONE` etc.) use the groufix enum
order; no claim depends on the numeric values. -/

def GFX_FACTOR_ZERO : Nat := 0
def GFX_FACTOR_ONE : Nat := 1
def GFX_BLEND_NO_OP : Nat := 0

/-- `GFX_ACCESS_HOST_READ | GFX_ACCESS_HOST_WRITE` (`deps.h`). -/
def GFX_ACCESS_HOST_READ_WRITE : Nat := 0x1000 ||| 0x2000

/-- `mask &= ~GFX_ACCESS_HOST_READ_WRITE` on a `Nat`: clear the host bits. -/
def stripHostAccess (mask : Nat) : Nat :=
  mask - (mask &&& GFX_ACCESS_HOST_READ_WRITE)

/-- The default blend operation state installed on first consumption
(`srcFactor = ONE, dstFactor = ZERO, op = NO_OP`). -/
def defaultBlendOp : BlendOpState :=
  { srcFactor := GFX_FACTOR_ONE, dstFactor := GFX_FACTOR_ZERO,
    op := GFX_BLEND_NO_OP }

/-- The reset graph output written at the `invalidate:` label of
`_gfx_pass_consume`. -/
def resetOut : ConsumeOut :=
  { initial := VK_IMAGE_LAYOUT_UNDEFINED, final := VK_IMAGE_LAYOUT_UNDEFINED,
    prev := none }

/-- The replacement record built by `_gfx_pass_consume` when the index was
already consumed: the new record, keeping the old record's `BLEND` flag bit
and its clear/blend/resolve values, with graph output reset. -/
def mergeConsume (old new : Consume) : Consume :=
  { new with
    flags := if old.flags &&& CONSUME_BLEND ≠ 0 then
               new.flags ||| CONSUME_BLEND else new.flags
    cleared := old.cleared
    clear := old.clear
    color := old.color
    alpha := old.alpha
    resolve := old.resolve
    out := resetOut }

/-- The record pushed by `_gfx_pass_consume` for a first consumption of an
index: the new record with default clear/blend/resolve values and reset
graph output. -/
def freshConsume (new : Consume) : Consume :=
  { new with
    cleared := 0
    clear := { depth := 0, stencil := 0 }
    color := defaultBlendOp
    alpha := defaultBlendOp
    resolve := SIZE_MAX
    out := resetOut }

/-- Replace the last record matching `c.view.index` (the first one the
backwards search of `_gfx_pass_consume` encounters) by `mergeConsume`. -/
def replaceLastMatch : List Consume → Consume → List Consume
  | [], _ => []
  | r :: rs, c =>
    if rs.any fun x => x.view.index = c.view.index then
      r :: replaceLastMatch rs c
    else if r.view.index = c.view.index then
      mergeConsume r c :: rs
    else
      r :: replaceLastMatch rs c

/-- `_gfx_pass_consume` (`pass.c`) acting on the consumption vector: strip
host access bits, then replace the last record of the same attachment index,
or push a fresh record. Allocation failure of the vector push is not
modelled. -/
def passConsume (consumes : List Consume) (consume : Consume) : List Consume :=
  let c := { consume with mask := stripHostAccess consume.mask }
  if consumes.any fun r => r.view.index = c.view.index then
    replaceLastMatch consumes c
  else
    consumes ++ [freshConsume c]

/-- The body of `gfx_pass_clear`: set the clear value on the last record
matching `index` (preserving the other half of the depth/stencil pair when
`aspect` is exactly depth or exactly stencil), or leave the list unchanged. -/
def clearLastMatch : List Consume → Nat → Nat → Clear → List Consume
  | [], _, _, _ => []
  | r :: rs, index, aspect, value =>
    if rs.any fun x => x.view.index = index then
      r :: clearLastMatch rs index aspect value
    else if r.view.index = index then
      let v :=
        if aspect = GFX_IMAGE_DEPTH then { value with stencil := r.clear.stencil }
        else if aspect = GFX_IMAGE_STENCIL then { value with depth := r.clear.depth }
        else value
      { r with cleared := aspect, clear := v } :: rs
    else
      r :: clearLastMatch rs index aspect value

/-- `gfx_pass_clear` (`pass.c`) acting on the consumption vector. Requires
(as the source asserts) that `aspect` not mix `COLOR` with other bits. -/
def passClear (consumes : List Consume) (index aspect : Nat) (value : Clear) :
    List Consume :=
  clearLastMatch consumes index aspect value

/-! ## Pass creation level and level-sorted insertion (`pass.c`,
`_gfx_create_pass`; `renderer.c`, `gfx_renderer_add`) -/

/-- A pass as the insertion code sees it: its `level`, plus an identity tag
(standing for the pass object itself) so stability is expressible. -/
structure PassNode where
  level : Nat
  tag : Nat
deriving DecidableEq

/-- The `pass->level` computation of `_gfx_create_pass`: start at 0 and for
each parent `p`, `if (p->level >= level) level = p->level + 1`. -/
def createLevel (parentLevels : List Nat) : Nat :=
  parentLevels.foldl (fun lv p => if lv ≤ p then p + 1 else lv) 0

/-- The backwards search of `gfx_renderer_add`, acting on the reversed pass
list: `for (loc = size; loc > 0; --loc) if (passes[loc-1].level <= level)
break;` — the head of the reversed list is `passes[loc-1]` for `loc = size`. -/
def addLocRev (lv : Nat) : List PassNode → Nat
  | [] => 0
  | q :: qs => if q.level ≤ lv then qs.length + 1 else addLocRev lv qs

/-- `gfx_renderer_add`'s insertion of a new pass into the renderer's linear
pass list: insert at the location found by the backwards level search. -/
def addPass (ps : List PassNode) (p : PassNode) : List PassNode :=
  ps.insertIdx (addLocRev p.level ps.reverse) p

/-- The pass list is sorted by non-decreasing level. -/
def LevelSorted (ps : List PassNode) : Prop :=
  ps.Pairwise fun a b => a.level ≤ b.level

instance : DecidablePred LevelSorted := fun ps =>
  List.instDecidablePairwise ps

/-! ## Descriptor pool (`pool.c`)

One subordinate is modelled (operations on other subordinates' tables are
identical). Hash tables are association lists searched front-to-back
(standing for `gfx_map_hsearch`); allocation failures (`malloc`, map insert,
Vulkan descriptor-pool creation/allocation) are not modelled, so the Vulkan
out-of-pool-memory retry path and the "lost" accounting never trigger.
Per-element flush counters only feed `_gfx_pool_flush` and are omitted. -/

/-- A composed `_GFXHashKey` for the pool: its first `sizeof(_GFXCacheElem*)`
bytes hold the set-layout cache element (`layout`), followed by the rest of
the composed key bytes. A `_GFXRecycleKey` is just the `layout` part. -/
structure HashKey where
  layout : Nat
  rest : List Nat
deriving DecidableEq

/-- A `_GFXPoolElem`: the allocated `VkDescriptorSet` handle and the block it
came from. -/
structure PoolElem where
  set : Nat
  block : Nat
deriving DecidableEq

/-- The `_GFXPool` state (one subordinate): the three hash tables, the
live-set counts of the existing blocks, the subordinate's claimed block, the
free-block list, and fresh-handle counters for new sets and blocks. -/
structure PoolState where
  immutable : List (HashKey × PoolElem)
  subMutable : List (HashKey × PoolElem)
  recycled : List (Nat × PoolElem)
  blockSets : List (Nat × Nat)
  subBlock : Option Nat
  freeBlocks : List Nat
  nextSet : Nat
  nextBlock : Nat
deriving DecidableEq

/-- First-match search of a pool hash table (`gfx_map_hsearch`). -/
def mapSearch (key : HashKey) (m : List (HashKey × PoolElem)) : Option PoolElem :=
  (m.find? fun p => p.1 = key).map (·.2)

/-- First-match search of the recycled table by set-layout handle only. -/
def recSearch (layout : Nat) (m : List (Nat × PoolElem)) : Option PoolElem :=
  (m.find? fun p => p.1 = layout).map (·.2)

/-- Live-set count of a block. -/
def blockCount (bs : List (Nat × Nat)) (b : Nat) : Nat :=
  ((bs.find? fun p => p.1 = b).map (·.2)).getD 0

/-- `atomic_fetch_add(&block->sets, 1)`. -/
def bumpBlock (bs : List (Nat × Nat)) (b : Nat) : List (Nat × Nat) :=
  bs.map fun p => if p.1 = b then (p.1, p.2 + 1) else p

/-- `atomic_fetch_sub(&block->sets, 1)`. -/
def dropBlock (bs : List (Nat × Nat)) (b : Nat) : List (Nat × Nat) :=
  bs.map fun p => if p.1 = b then (p.1, p.2 - 1) else p

/-- `_gfx_unclaim_pool_blocks`: the subordinate's allocating block is linked
at the front of the pool's free list. -/
def unclaimBlocks (st : PoolState) : PoolState :=
  match st.subBlock with
  | none => st
  | some b => { st with subBlock := none, freeBlocks := b :: st.freeBlocks }

/-- `_gfx_recycle_pool_elem` on an element already detached from its source
table: re-key it by its set-layout handle into the recycled table, decrement
its block's live-set count, and when that count hits zero erase all of the
block's elements from the recycled table and destroy the block. -/
def recycleElemFx (st : PoolState) (layout : Nat) (e : PoolElem) : PoolState :=
  let recycled := st.recycled ++ [(layout, e)]
  let bs := dropBlock st.blockSets e.block
  if blockCount bs e.block = 0 then
    { st with
      recycled := recycled.filter fun p => p.2.block ≠ e.block
      blockSets := bs.filter fun p => p.1 ≠ e.block
      freeBlocks := st.freeBlocks.filter fun b => b ≠ e.block }
  else
    { st with recycled := recycled, blockSets := bs }

/-- The per-table loop of `_gfx_pool_recycle`: walk the table, detach every
element whose stored key equals `key` and recycle it; return the table
without the matches and the updated pool state (whose own table fields are
left for the caller to set). -/
def recycleMatches (key : HashKey) :
    List (HashKey × PoolElem) → PoolState → List (HashKey × PoolElem) × PoolState
  | [], st => ([], st)
  | (k, e) :: rest, st =>
    if k = key then
      recycleMatches key rest (recycleElemFx st k.layout e)
    else
      let r := recycleMatches key rest st
      ((k, e) :: r.1, r.2)

/-- `_gfx_pool_recycle` (`pool.c`): unclaim blocks, then recycle all elements
matching the composed key in the subordinate table and the immutable table. -/
def poolRecycle (st : PoolState) (key : HashKey) : PoolState :=
  let st0 := unclaimBlocks st
  let r1 := recycleMatches key st0.subMutable st0
  let st1 := { r1.2 with subMutable := r1.1 }
  let r2 := recycleMatches key st1.immutable st1
  { r2.2 with immutable := r2.1 }

/-- `_gfx_pool_get` (`pool.c`): search the immutable table, then the
subordinate's table, then the recycled table by set-layout handle (moving a
hit into the subordinate's table under the full composed key); otherwise
allocate a new descriptor set from the claimed/free/new block. Either way
the returned element's block gains one live set. -/
def poolGet (st : PoolState) (key : HashKey) : PoolElem × PoolState :=
  match mapSearch key st.immutable with
  | some e => (e, st)
  | none =>
  match mapSearch key st.subMutable with
  | some e => (e, st)
  | none =>
  match recSearch key.layout st.recycled with
  | some e =>
    let st1 := { st with
      recycled := st.recycled.eraseP fun p => decide (p.1 = key.layout)
      subMutable := st.subMutable ++ [(key, e)] }
    (e, { st1 with blockSets := bumpBlock st1.blockSets e.block })
  | none =>
    let claimed : Nat × PoolState :=
      match st.subBlock with
      | some b => (b, st)
      | none =>
        match st.freeBlocks with
        | b :: rest => (b, { st with subBlock := some b, freeBlocks := rest })
        | [] =>
          (st.nextBlock,
           { st with
             subBlock := some st.nextBlock
             blockSets := st.blockSets ++ [(st.nextBlock, 0)]
             nextBlock := st.nextBlock + 1 })
    let e : PoolElem := { set := claimed.2.nextSet, block := claimed.1 }
    let st2 := { claimed.2 with
      subMutable := claimed.2.subMutable ++ [(key, e)]
      nextSet := claimed.2.nextSet + 1 }
    (e, { st2 with blockSets := bumpBlock st2.blockSets e.block })

/-! ## Pipeline-cache blob (`cache.c`, `_gfx_cache_store`, `_gfx_cache_load`)

A blob is a byte list. Numbers are serialized with the byte order of the
only platforms the `memcpy` size-truncation trick is coherent on
(little-endian, as the spec prescribes). Murmur3-64 itself is implemented in
a file not under `src/`; the hash is an explicit function parameter and the
theorems hold for every choice of it. -/

/-- `_GFX_HEADER_MAGIC`. -/
def HEADER_MAGIC : Nat := 0xff60af14

/-- 4 bytes, little-endian. -/
def le32 (n : Nat) : List Nat :=
  [n % 256, n / 256 % 256, n / 65536 % 256, n / 16777216 % 256]

/-- 8 bytes, little-endian. -/
def le64 (n : Nat) : List Nat :=
  le32 (n % 2 ^ 32) ++ le32 (n / 2 ^ 32)

/-- Read 4 little-endian bytes at `off`. -/
def rd32 (l : List Nat) (off : Nat) : Nat :=
  l.getD off 0 + 256 * l.getD (off + 1) 0 +
  65536 * l.getD (off + 2) 0 + 16777216 * l.getD (off + 3) 0

/-- Read 8 little-endian bytes at `off`. -/
def rd64 (l : List Nat) (off : Nat) : Nat :=
  rd32 l off + 2 ^ 32 * rd32 l (off + 4)

/-- `memcpy` into a byte list at offset `off`. -/
def overwrite (l : List Nat) (off : Nat) (v : List Nat) : List Nat :=
  l.take off ++ v ++ l.drop (off + v.length)

/-- The device properties the blob header captures
(`VkPhysicalDeviceProperties`); `uuid` is `pipelineCacheUUID`
(`VK_UUID_SIZE = 16` bytes). -/
structure DeviceProps where
  vendorID : Nat
  deviceID : Nat
  driverVersion : Nat
  uuid : List Nat
deriving DecidableEq

/-- The header size: `4 + 4 + 8 + 4 + 4 + 4 + 4 + 16`. -/
def headerSize : Nat := 48

/-- `_gfx_cache_store` (`cache.c`): push magic, zero size, zero hash, the
device fields, `driverABI = sizeof(void*) = ptrSize`, the UUID and the opaque
Vulkan cache data `vkData`; then overwrite the size with the total length,
hash while the hash field is still zero, and overwrite the hash. The
resulting byte list is what is streamed out. -/
def cacheStore (hashFn : List Nat → Nat) (dev : DeviceProps) (ptrSize : Nat)
    (vkData : List Nat) : List Nat :=
  let blob0 :=
    le32 HEADER_MAGIC ++ le32 0 ++ le64 0 ++
    le32 dev.vendorID ++ le32 dev.deviceID ++ le32 dev.driverVersion ++
    le32 ptrSize ++ dev.uuid ++ vkData
  let blob1 := overwrite blob0 4 (le32 blob0.length)
  overwrite blob1 8 (le64 (hashFn blob1))

/-- `_gfx_cache_load` (`cache.c`) on the bytes actually read from the
stream: reject (`none`) on an incomplete header or any mismatching field;
only when every field matches, merge the opaque data into the live cache
(`some` of the merged payload) and destroy the temporary cache. Stream
read errors and Vulkan create/merge failures are not modelled. -/
def cacheLoad (hashFn : List Nat → Nat) (dev : DeviceProps) (ptrSize : Nat)
    (data : List Nat) : Option (List Nat) :=
  if data.length < headerSize then none
  else
    if rd32 data 0 = HEADER_MAGIC ∧
       rd32 data 4 = data.length ∧
       rd64 data 8 = hashFn (overwrite data 8 (le64 0)) ∧
       rd32 data 16 = dev.vendorID ∧
       rd32 data 20 = dev.deviceID ∧
       rd32 data 24 = dev.driverVersion ∧
       rd32 data 28 = ptrSize ∧
       (data.drop 32).take 16 = dev.uuid then
      some (data.drop headerSize)
    else none

/-- The shape of the blob `_gfx_cache_store` assembles, with explicit size
and hash field values (used to state what the two overwrites produce). -/
def storeHeaderBlob (dev : DeviceProps) (ptrSize : Nat) (vkData : List Nat)
    (size hash : Nat) : List Nat :=
  le32 HEADER_MAGIC ++ le32 size ++ le64 hash ++
  le32 dev.vendorID ++ le32 dev.deviceID ++ le32 dev.driverVersion ++
  le32 ptrSize ++ dev.uuid ++ vkData

/-! ## Concrete values for evaluating barrier synthesis on explicit inputs -/

/-- A concrete choice of the abstract Vulkan expansion tables, used only to
evaluate the embedded code on explicit inputs. -/
def tblId : VkTables :=
  { pipelineStage := fun m _ _ => m
    modStage := fun s => s
    accessFlags := fun m _ => m
    imageAspect := fun a => a }

/-- A concrete consumption: `GFX_ACCESS_STORAGE_WRITE`, depth aspect, mip
window `[1, 3)`, layer window `[0, 3)`, final layout 5. -/
def conA : Consume :=
  { flags := 0, mask := 0x40, stage := 1
    view := ⟨0, ⟨2, 1, 2, 0, 3⟩⟩
    cleared := 0, clear := ⟨0, 0⟩
    color := defaultBlendOp, alpha := defaultBlendOp
    resolve := 0, out := ⟨0, 5, some 0⟩ }

/-- A concrete consumption: `GFX_ACCESS_ATTACHMENT_READ`, depth aspect, mip
window `[0, 4)`, whole layer range, initial layout 5. -/
def conB : Consume :=
  { flags := 0, mask := 0x100, stage := 1
    view := ⟨0, ⟨2, 0, 4, 1, 0⟩⟩
    cleared := 0, clear := ⟨0, 0⟩
    color := defaultBlendOp, alpha := defaultBlendOp
    resolve := 0, out := ⟨5, 6, none⟩ }

/-- `conA` with the blend flag set and explicit clear/resolve state. -/
def conABlend : Consume :=
  { conA with flags := CONSUME_BLEND, cleared := 2, resolve := 4 }

/-- `conA` with an explicit clear value (depth pattern 3, stencil 7). -/
def conAClr : Consume :=
  { conA with clear := ⟨3, 7⟩ }

/-- `conB` re-targeted at attachment index 1. -/
def conB1 : Consume :=
  { conB with view := ⟨1, conB.view.range⟩ }

/-- A re-consume of index 0 carrying a host access bit
(`GFX_ACCESS_HOST_READ = 0x1000` on top of `0x40`). -/
def conHost : Consume :=
  { conB with mask := 0x1040 }

/-- `conHost` after the host access bits are stripped. -/
def conHostStripped : Consume :=
  { conB with mask := 0x40 }

/-! # Theorems -/

/-- C1: `_gfx_frame_sync` / `_gfx_frame_clear` are claimed to wait on the
fence of every queue the frame submitted on. The `numFences` expression
`(g ? 1 : 0 + c ? 1 : 0)` parses (C precedence) as `g ? 1 : ((0 + c) ? 1 : 0)`
and evaluates to 1 when both queues submitted, so only the graphics fence is
passed to `vkWaitForFences` and the compute fence is never waited on — while
the intended count `(g ? 1 : 0) + (c ? 1 : 0)` would wait on both. The
single-queue cases do satisfy the claim. -/
theorem frame_sync_fence_wait_bug :
    numFences ⟨true, true⟩ = 1 ∧
    waitedFences ⟨true, true⟩ = [Fence.graphics] ∧
    Fence.compute ∉ waitedFences ⟨true, true⟩ ∧
    numFencesIntended ⟨true, true⟩ = 2 ∧
    (fencesArray ⟨true, true⟩).take (numFencesIntended ⟨true, true⟩) =
      [Fence.graphics, Fence.compute] ∧
    waitedFences ⟨true, false⟩ = expectedFences ⟨true, false⟩ ∧
    waitedFences ⟨false, true⟩ = expectedFences ⟨false, true⟩ ∧
    waitedFences ⟨false, false⟩ = expectedFences ⟨false, false⟩ := by
  decide

/-- C10: `_gfx_frame_get_swapchain_index` is total and bounds-guarded: it
returns `UINT32_MAX` when `index` is not below the frame's reference count,
or when the stored sync reference is not a valid position in the sync-object
array; only otherwise does it return the acquired swapchain image index of
that window's sync object. -/
theorem frame_swapchain_index_total (f : Frame) (index : Nat) :
    (f.refs.length ≤ index → getSwapchainIndex f index = UINT32_MAX) ∧
    ∀ h : index < f.refs.length,
      (f.syncs.length ≤ f.refs[index] →
        getSwapchainIndex f index = UINT32_MAX) ∧
      ∀ h2 : f.refs[index] < f.syncs.length,
        getSwapchainIndex f index = (f.syncs[f.refs[index]]).image := by
  refine ⟨fun hle => ?_, fun h => ⟨fun hs => ?_, fun h2 => ?_⟩⟩
  · simp only [getSwapchainIndex, if_pos hle]
  · have hlt : ¬f.refs.length ≤ index := by omega
    have hd : f.refs.getD index 0 = f.refs[index] := List.getD_eq_getElem _ _ h
    simp only [getSwapchainIndex, if_neg hlt, hd, if_pos hs]
  · have hlt : ¬f.refs.length ≤ index := by omega
    have hd : f.refs.getD index 0 = f.refs[index] := List.getD_eq_getElem _ _ h
    have hs : ¬f.syncs.length ≤ f.refs[index] := by omega
    have hd2 : f.syncs.getD f.refs[index] ⟨0⟩ = f.syncs[f.refs[index]] :=
      List.getD_eq_getElem _ _ h2
    simp only [getSwapchainIndex, if_neg hlt, hd, if_neg hs, hd2]

/-- Witness for C10 at a concrete frame: attachment 0 refers to sync object
1, whose acquired swapchain image index is 9. -/
theorem frame_swapchain_index_total_witness :
    getSwapchainIndex ⟨[1, 0], [⟨7⟩, ⟨9⟩]⟩ 0 = 9 ∧
    getSwapchainIndex ⟨[1, 0], [⟨7⟩, ⟨9⟩]⟩ 5 = UINT32_MAX := by
  have h := frame_swapchain_index_total ⟨[1, 0], [⟨7⟩, ⟨9⟩]⟩ 0
  have h5 := frame_swapchain_index_total ⟨[1, 0], [⟨7⟩, ⟨9⟩]⟩ 5
  exact ⟨(h.2 (by decide)).2 (by decide), h5.1 (by decide)⟩

/-- C6: every image memory barrier synthesized by `_gfx_frame_push_barrier`
carries the union of the two consumption ranges: base mip level and base
array layer are the minima of the two bases; level count (resp. layer count)
is `VK_REMAINING_MIP_LEVELS` (resp. `VK_REMAINING_ARRAY_LAYERS`) if either
consumption specified count zero, and otherwise the maximum over both
consumptions of `count + (base - mergedBase)`. -/
theorem barrier_subresource_union (T : VkTables) (att : Attach) (frame : Frame)
    (prev con : Consume) (s d : Nat) (imb : ImageMemoryBarrier)
    (h : pushBarrier T att frame prev con = .image s d imb) :
    imb.subresourceRange.baseMipLevel =
      min prev.view.range.mipmap con.view.range.mipmap ∧
    imb.subresourceRange.baseArrayLayer =
      min prev.view.range.layer con.view.range.layer ∧
    (prev.view.range.numMipmaps = 0 ∨ con.view.range.numMipmaps = 0 →
      imb.subresourceRange.levelCount = VK_REMAINING_MIP_LEVELS) ∧
    (prev.view.range.numMipmaps ≠ 0 ∧ con.view.range.numMipmaps ≠ 0 →
      imb.subresourceRange.levelCount =
        max (prev.view.range.numMipmaps + (prev.view.range.mipmap -
              min prev.view.range.mipmap con.view.range.mipmap))
            (con.view.range.numMipmaps + (con.view.range.mipmap -
              min prev.view.range.mipmap con.view.range.mipmap))) ∧
    (prev.view.range.numLayers = 0 ∨ con.view.range.numLayers = 0 →
      imb.subresourceRange.layerCount = VK_REMAINING_ARRAY_LAYERS) ∧
    (prev.view.range.numLayers ≠ 0 ∧ con.view.range.numLayers ≠ 0 →
      imb.subresourceRange.layerCount =
        max (prev.view.range.numLayers + (prev.view.range.layer -
              min prev.view.range.layer con.view.range.layer))
            (con.view.range.numLayers + (con.view.range.layer -
              min prev.view.range.layer con.view.range.layer))) := by
  have hr : imb.subresourceRange =
      mergedSubresource T (attachFormat att) prev con := by
    simp only [pushBarrier] at h
    split at h
    · simp at h
    · split at h
      · simp at h
      · simp only [BarrierPush.image.injEq] at h
        rw [← h.2.2]
  rw [hr]
  refine ⟨rfl, rfl, fun hz => ?_, fun hnz => ?_, fun hz => ?_, fun hnz => ?_⟩
  · simp only [mergedSubresource, if_pos hz]
  · simp only [mergedSubresource]
    rw [if_neg (by tauto)]
  · simp only [mergedSubresource, if_pos hz]
  · simp only [mergedSubresource]
    rw [if_neg (by tauto)]

/-- Witness for C6 at a concrete input: `conA`/`conB` on a depth-format
image attachment produce an image barrier whose merged range starts at mip
0, spans `max (2+1) (4+0) = 4` levels, and spans all remaining layers since
`conB` consumed the whole layer range. -/
theorem barrier_subresource_union_witness :
    pushBarrier tblId (.image ⟨true, false⟩ 3) ⟨[], []⟩ conA conB =
      .image 0x40 0x100
        { srcAccessMask := 0x40, dstAccessMask := 0x100, oldLayout := 5,
          newLayout := 5, image := 3,
          subresourceRange := ⟨2, 0, 0, 4, VK_REMAINING_ARRAY_LAYERS⟩ } ∧
    (4 : Nat) = max (2 + (1 - min 1 0)) (4 + (0 - min 1 0)) := by
  have h : pushBarrier tblId (.image ⟨true, false⟩ 3) ⟨[], []⟩ conA conB =
      .image 0x40 0x100
        { srcAccessMask := 0x40, dstAccessMask := 0x100, oldLayout := 5,
          newLayout := 5, image := 3,
          subresourceRange := ⟨2, 0, 0, 4, VK_REMAINING_ARRAY_LAYERS⟩ } := by
    decide
  have w := barrier_subresource_union tblId (.image ⟨true, false⟩ 3) ⟨[], []⟩
    conA conB 0x40 0x100 _ h
  exact ⟨h, w.2.2.2.1 (by decide)⟩

/-- C5 counterexample: the claim states that whenever the previous
consumption wrote or the layouts differ, an image memory barrier is pushed.
At this concrete input the previous consumption `conA` has a write access
(`GFX_ACCESS_STORAGE_WRITE`), yet the attachment is a window whose swapchain
image index (`UINT32_MAX`, not acquired) is out of range of its (empty)
image list, so `_gfx_frame_push_barrier` pushes nothing at all and returns
success ("silently ignore non-existent"). -/
theorem pushBarrier_window_skip_cex :
    GFX_ACCESS_WRITES conA.mask = true ∧
    conA.out.final = conB.out.initial ∧
    pushBarrier tblId (.window []) ⟨[0], [⟨UINT32_MAX⟩]⟩ conA conB =
      BarrierPush.skip := by
  decide

/-- C5 (amended): if the previous consumption has no write access and its
final layout equals the current consumption's initial layout, an
execution-only barrier is pushed; otherwise, for an image attachment, or for
a window attachment whose looked-up swapchain image index is a valid
position in its image list, an image memory barrier is pushed with
src/dst access flags derived from the masks and the attachment format,
`oldLayout`/`newLayout` equal to previous-final/current-initial and the
merged subresource range; for a window attachment whose swapchain index is
out of range, no barrier is pushed. -/
theorem pushBarrier_characterization (T : VkTables) (att : Attach)
    (frame : Frame) (prev con : Consume) :
    (GFX_ACCESS_WRITES prev.mask = false → prev.out.final = con.out.initial →
      pushBarrier T att frame prev con =
        .exec (T.modStage (T.pipelineStage prev.mask prev.stage (attachFormat att)))
              (T.modStage (T.pipelineStage con.mask con.stage (attachFormat att)))) ∧
    (GFX_ACCESS_WRITES prev.mask = true ∨ prev.out.final ≠ con.out.initial →
      (∀ fmt img, att = .image fmt img →
        pushBarrier T att frame prev con =
          .image (T.modStage (T.pipelineStage prev.mask prev.stage fmt))
                 (T.modStage (T.pipelineStage con.mask con.stage fmt))
            { srcAccessMask := T.accessFlags prev.mask fmt
              dstAccessMask := T.accessFlags con.mask fmt
              oldLayout := prev.out.final
              newLayout := con.out.initial
              image := img
              subresourceRange := mergedSubresource T fmt prev con }) ∧
      (∀ images, att = .window images →
        (images.length ≤ getSwapchainIndex frame con.view.index →
          pushBarrier T att frame prev con = .skip) ∧
        ∀ hlt : getSwapchainIndex frame con.view.index < images.length,
          pushBarrier T att frame prev con =
            .image (T.modStage (T.pipelineStage prev.mask prev.stage GFX_FORMAT_EMPTY))
                   (T.modStage (T.pipelineStage con.mask con.stage GFX_FORMAT_EMPTY))
              { srcAccessMask := T.accessFlags prev.mask GFX_FORMAT_EMPTY
                dstAccessMask := T.accessFlags con.mask GFX_FORMAT_EMPTY
                oldLayout := prev.out.final
                newLayout := con.out.initial
                image := images[getSwapchainIndex frame con.view.index]
                subresourceRange :=
                  mergedSubresource T GFX_FORMAT_EMPTY prev con })) := by
  constructor
  · intro hw ht
    simp only [pushBarrier]
    rw [if_pos]
    exact ⟨by simp [hw], by simpa using ht⟩
  · intro hor
    have hcond : ¬(¬GFX_ACCESS_WRITES prev.mask ∧
        ¬prev.out.final ≠ con.out.initial) := by
      rcases hor with hw | ht
      · exact fun hc => hc.1 (by simp [hw])
      · exact fun hc => hc.2 ht
    constructor
    · intro fmt img hatt
      subst hatt
      simp only [pushBarrier, attachFormat]
      rw [if_neg hcond]
    · intro images hatt
      subst hatt
      constructor
      · intro hle
        simp only [pushBarrier, attachFormat]
        rw [if_neg hcond, if_pos hle]
      · intro hlt
        have hle : ¬images.length ≤ getSwapchainIndex frame con.view.index := by
          omega
        have hd : images.getD (getSwapchainIndex frame con.view.index) 0 =
            images[getSwapchainIndex frame con.view.index] :=
          List.getD_eq_getElem _ _ hlt
        simp only [pushBarrier, attachFormat]
        rw [if_neg hcond, if_neg hle, hd]

/-- Witness for C5 at a concrete input: `conA` wrote, so the image
attachment gets a full image memory barrier. -/
theorem pushBarrier_characterization_witness :
    pushBarrier tblId (.image ⟨true, false⟩ 3) ⟨[], []⟩ conA conB =
      .image 0x40 0x100
        { srcAccessMask := 0x40, dstAccessMask := 0x100, oldLayout := 5,
          newLayout := 5, image := 3,
          subresourceRange := ⟨2, 0, 0, 4, VK_REMAINING_ARRAY_LAYERS⟩ } := by
  have h := (pushBarrier_characterization tblId (.image ⟨true, false⟩ 3)
    ⟨[], []⟩ conA conB).2 (Or.inl (by decide))
  exact (h.1 ⟨true, false⟩ 3 rfl).trans (by decide)

/-- Helper: the backwards search of `_gfx_pass_consume` replaces exactly the
last record of the matching attachment index. -/
lemma replaceLastMatch_append (l₁ l₂ : List Consume) (r c : Consume)
    (hl2 : ∀ x ∈ l₂, ¬x.view.index = c.view.index)
    (hr : r.view.index = c.view.index) :
    replaceLastMatch (l₁ ++ r :: l₂) c = l₁ ++ mergeConsume r c :: l₂ := by
  induction l₁ with
  | nil =>
    have h2 : (l₂.any fun x => x.view.index = c.view.index) = false := by
      simp only [List.any_eq_false, decide_eq_true_eq]
      exact hl2
    simp [replaceLastMatch, h2, hr]
  | cons a t ih =>
    have hany : ((t ++ r :: l₂).any fun x => x.view.index = c.view.index) = true := by
      simp only [List.any_eq_true, decide_eq_true_eq]
      exact ⟨r, by simp, hr⟩
    simp [replaceLastMatch, hany, ih]

/-- Helper: `gfx_pass_clear` with no matching consumption leaves the list
unchanged. -/
lemma clearLastMatch_nomatch (cs : List Consume) (index aspect : Nat)
    (v : Clear) (h : ∀ x ∈ cs, ¬x.view.index = index) :
    clearLastMatch cs index aspect v = cs := by
  induction cs with
  | nil => rfl
  | cons a t ih =>
    have ha := h a (by simp)
    have ht : ∀ x ∈ t, ¬x.view.index = index := fun x hx => h x (by simp [hx])
    have hany : (t.any fun x => x.view.index = index) = false := by
      simp only [List.any_eq_false, decide_eq_true_eq]
      exact ht
    simp [clearLastMatch, hany, ha, ih ht]

/-- Helper: the backwards search of `gfx_pass_clear` updates exactly the
last record of the matching attachment index. -/
lemma clearLastMatch_append (l₁ l₂ : List Consume) (r : Consume)
    (index aspect : Nat) (v : Clear)
    (hl2 : ∀ x ∈ l₂, ¬x.view.index = index)
    (hr : r.view.index = index) :
    clearLastMatch (l₁ ++ r :: l₂) index aspect v =
      l₁ ++ ({ r with cleared := aspect, clear :=
        if aspect = GFX_IMAGE_DEPTH then { v with stencil := r.clear.stencil }
        else if aspect = GFX_IMAGE_STENCIL then { v with depth := r.clear.depth }
        else v } : Consume) :: l₂ := by
  induction l₁ with
  | nil =>
    have h2 : (l₂.any fun x => x.view.index = index) = false := by
      simp only [List.any_eq_false, decide_eq_true_eq]
      exact hl2
    simp [clearLastMatch, h2, hr]
  | cons a t ih =>
    have hany : ((t ++ r :: l₂).any fun x => x.view.index = index) = true := by
      simp only [List.any_eq_true, decide_eq_true_eq]
      exact ⟨r, by simp, hr⟩
    simp [clearLastMatch, hany, ih]

/-- C7: re-consuming an attachment index a pass already consumes replaces
the stored record in place (same list shape, no second record): the new
record carries the re-consume's access mask (with host bits stripped, as the
stand-in does first), stage mask, view and flags (plus the old record's
blend-set flag), while the old record's cleared aspects, clear value, blend
operation states and resolve target are kept exactly. -/
theorem pass_reconsume_replaces (l₁ l₂ : List Consume) (r c : Consume)
    (hl2 : ∀ x ∈ l₂, ¬x.view.index = c.view.index)
    (hr : r.view.index = c.view.index) :
    passConsume (l₁ ++ r :: l₂) c =
      l₁ ++ mergeConsume r { c with mask := stripHostAccess c.mask } :: l₂ ∧
    (mergeConsume r { c with mask := stripHostAccess c.mask }).mask =
      stripHostAccess c.mask ∧
    (mergeConsume r { c with mask := stripHostAccess c.mask }).stage = c.stage ∧
    (mergeConsume r { c with mask := stripHostAccess c.mask }).view = c.view ∧
    (mergeConsume r { c with mask := stripHostAccess c.mask }).flags =
      c.flags ||| (r.flags &&& CONSUME_BLEND) ∧
    (mergeConsume r { c with mask := stripHostAccess c.mask }).cleared = r.cleared ∧
    (mergeConsume r { c with mask := stripHostAccess c.mask }).clear = r.clear ∧
    (mergeConsume r { c with mask := stripHostAccess c.mask }).color = r.color ∧
    (mergeConsume r { c with mask := stripHostAccess c.mask }).alpha = r.alpha ∧
    (mergeConsume r { c with mask := stripHostAccess c.mask }).resolve = r.resolve := by
  have hflags : (mergeConsume r { c with mask := stripHostAccess c.mask }).flags =
      c.flags ||| (r.flags &&& CONSUME_BLEND) := by
    have hpow : r.flags &&& CONSUME_BLEND = (r.flags.testBit 1).toNat * 2 := by
      have h := Nat.and_two_pow r.flags 1
      simpa [CONSUME_BLEND] using h
    cases hb : r.flags.testBit 1 with
    | false =>
      have h0 : r.flags &&& CONSUME_BLEND = 0 := by simp [hpow, hb]
      simp [mergeConsume, h0]
    | true =>
      have h2 : r.flags &&& (2 : Nat) = 2 := by
        simpa [CONSUME_BLEND] using hpow.trans (by simp [hb])
      simp [mergeConsume, CONSUME_BLEND, h2]
  refine ⟨?_, rfl, rfl, rfl, hflags, rfl, rfl, rfl, rfl, rfl⟩
  have hany : ((l₁ ++ r :: l₂).any
      fun x => x.view.index = c.view.index) = true := by
    simp only [List.any_eq_true, decide_eq_true_eq]
    exact ⟨r, by simp, hr⟩
  simp only [passConsume, hany, if_true, if_pos]
  exact replaceLastMatch_append l₁ l₂ r _ hl2 hr

/-- Witness for C7 at a concrete input: re-consuming index 0 (with a host
access bit, which is stripped) replaces `conABlend` in place, keeps its
clear/blend/resolve state and sets its blend flag bit on the new record. -/
theorem pass_reconsume_replaces_witness :
    passConsume [conABlend, conB1] conHost =
      [mergeConsume conABlend conHostStripped, conB1] ∧
    (mergeConsume conABlend conHostStripped).mask = 0x40 ∧
    (mergeConsume conABlend conHostStripped).resolve = 4 := by
  have h := pass_reconsume_replaces [] [conB1] conABlend conHost
    (by decide) (by decide)
  exact ⟨h.1.trans (by decide), h.2.1.trans (by decide),
    h.2.2.2.2.2.2.2.2.2.trans (by decide)⟩

/-- C9: on a pass consuming `index`, `gfx_pass_clear` with aspect exactly
`GFX_IMAGE_DEPTH` sets the depth clear value and keeps the stored stencil
clear value; with aspect exactly `GFX_IMAGE_STENCIL` it sets the stencil
clear value and keeps the stored depth clear value; with no consumption of
`index` the pass is unchanged. -/
theorem pass_clear_depth_stencil (l₁ l₂ : List Consume) (r : Consume)
    (index : Nat) (v : Clear) (cs : List Consume)
    (hl2 : ∀ x ∈ l₂, ¬x.view.index = index)
    (hr : r.view.index = index)
    (hn : ∀ x ∈ cs, ¬x.view.index = index) :
    passClear (l₁ ++ r :: l₂) index GFX_IMAGE_DEPTH v =
      l₁ ++ ({ r with
               cleared := GFX_IMAGE_DEPTH
               clear := ⟨v.depth, r.clear.stencil⟩ } : Consume) :: l₂ ∧
    passClear (l₁ ++ r :: l₂) index GFX_IMAGE_STENCIL v =
      l₁ ++ ({ r with
               cleared := GFX_IMAGE_STENCIL
               clear := ⟨r.clear.depth, v.stencil⟩ } : Consume) :: l₂ ∧
    ∀ aspect, passClear cs index aspect v = cs := by
  refine ⟨?_, ?_, fun aspect => clearLastMatch_nomatch cs index aspect v hn⟩
  · rw [passClear, clearLastMatch_append l₁ l₂ r index GFX_IMAGE_DEPTH v hl2 hr]
    simp
  · rw [passClear, clearLastMatch_append l₁ l₂ r index GFX_IMAGE_STENCIL v hl2 hr]
    norm_num [GFX_IMAGE_STENCIL, GFX_IMAGE_DEPTH]

/-- Witness for C9 at a concrete input: clearing depth on index 0 keeps the
stored stencil clear value 7, clearing stencil keeps the stored depth clear
value 3, and clearing on an unconsumed index changes nothing. -/
theorem pass_clear_depth_stencil_witness :
    passClear [conAClr] 0 GFX_IMAGE_DEPTH ⟨9, 1⟩ =
      [{ conAClr with cleared := GFX_IMAGE_DEPTH, clear := ⟨9, 7⟩ }] ∧
    passClear [conAClr] 0 GFX_IMAGE_STENCIL ⟨9, 1⟩ =
      [{ conAClr with cleared := GFX_IMAGE_STENCIL, clear := ⟨3, 1⟩ }] ∧
    passClear [conB1] 0 GFX_IMAGE_DEPTH ⟨9, 1⟩ = [conB1] := by
  have h := pass_clear_depth_stencil [] [] conAClr 0 ⟨9, 1⟩ [conB1]
    (by decide) (by decide) (by decide)
  exact ⟨h.1.trans (by decide), h.2.1.trans (by decide), h.2.2 GFX_IMAGE_DEPTH⟩

/-- Helper: the level fold of `_gfx_create_pass` started one above `m`
computes one above the running maximum. -/
lemma createLevel_foldl (ls : List Nat) (m : Nat) :
    ls.foldl (fun lv p => if lv ≤ p then p + 1 else lv) (m + 1) =
      ls.foldl Nat.max m + 1 := by
  induction ls generalizing m with
  | nil => rfl
  | cons a t ih =>
    simp only [List.foldl_cons]
    by_cases h : m + 1 ≤ a
    · rw [if_pos h]
      have hm : Nat.max m a = a := Nat.max_eq_right (by omega)
      rw [hm]
      exact ih a
    · rw [if_neg h]
      have hm : Nat.max m a = m := Nat.max_eq_left (by omega)
      rw [hm]
      exact ih m

/-- Helper: with at least one parent the computed level is one above the
maximum parent level. -/
lemma createLevel_eq (ls : List Nat) (h : ls ≠ []) :
    createLevel ls = 1 + ls.foldl Nat.max 0 := by
  match ls, h with
  | a :: t, _ =>
    show (a :: t).foldl (fun lv p => if lv ≤ p then p + 1 else lv) 0 = _
    simp only [List.foldl_cons, Nat.zero_le, if_pos, Nat.zero_max]
    rw [createLevel_foldl t a, Nat.add_comm]

/-- Helper: the backwards search never yields a location past the end. -/
lemma addLocRev_le (lv : Nat) (rs : List PassNode) : addLocRev lv rs ≤ rs.length := by
  induction rs with
  | nil => exact Nat.le_refl 0
  | cons q qs ih =>
    simp only [addLocRev, List.length_cons]
    split
    · omega
    · omega

/-- Helper: inserting within the left part of an append. -/
lemma insertIdx_append_left {α : Type} (a : α) :
    ∀ (n : Nat) (l1 l2 : List α), n ≤ l1.length →
      (l1 ++ l2).insertIdx n a = l1.insertIdx n a ++ l2 := by
  intro n
  induction n with
  | zero => intro l1 l2 _; rfl
  | succ n ih =>
    intro l1 l2 h
    match l1 with
    | [] => simp at h
    | x :: t =>
      simp only [List.cons_append, List.insertIdx_succ_cons]
      rw [ih t l2 (by simpa using h)]

/-- Helper: a failing last element does not change `takeWhile`. -/
lemma takeWhile_append_last {α : Type} (p : α → Bool) (l : List α) (q : α)
    (h : p q = false) : (l ++ [q]).takeWhile p = l.takeWhile p := by
  induction l with
  | nil => simp [List.takeWhile, h]
  | cons a t ih =>
    cases ha : p a with
    | true => simp [List.takeWhile_cons, ha, ih]
    | false => simp [List.takeWhile_cons, ha]

/-- Helper: a failing last element is kept by `dropWhile`. -/
lemma dropWhile_append_last {α : Type} (p : α → Bool) (l : List α) (q : α)
    (h : p q = false) : (l ++ [q]).dropWhile p = l.dropWhile p ++ [q] := by
  induction l with
  | nil => simp [List.dropWhile, h]
  | cons a t ih =>
    cases ha : p a with
    | true => simp [List.dropWhile_cons, ha, ih]
    | false => simp [List.dropWhile_cons, ha]

/-- Helper: in a level-sorted list, everything `dropWhile (level ≤ lv)`
keeps has level above `lv`. -/
lemma mem_dropWhile_gt (lv : Nat) :
    ∀ ps : List PassNode, LevelSorted ps →
      ∀ b ∈ ps.dropWhile (fun q => q.level ≤ lv), lv < b.level := by
  intro ps
  induction ps with
  | nil => intro _ b hb; simp at hb
  | cons q qs ih =>
    intro hs b hb
    rcases List.pairwise_cons.1 hs with ⟨hq, hqs⟩
    by_cases h : q.level ≤ lv
    · rw [List.dropWhile_cons_of_pos (by simpa using h)] at hb
      exact ih hqs b hb
    · rw [List.dropWhile_cons_of_neg (by simpa using h)] at hb
      rcases List.mem_cons.1 hb with rfl | hb2
      · omega
      · have := hq b hb2
        omega

/-- Helper: on a level-sorted list, `gfx_renderer_add` inserts the new pass
directly after all passes of level not above its own. -/
lemma addPass_eq (ps : List PassNode) (p : PassNode) (hs : LevelSorted ps) :
    addPass ps p = ps.takeWhile (fun q => q.level ≤ p.level) ++
      p :: ps.dropWhile (fun q => q.level ≤ p.level) := by
  induction ps using List.reverseRecOn with
  | nil => rfl
  | append_singleton xs q ih =>
    rcases List.pairwise_append.1 hs with ⟨hxs, -, hcross⟩
    have hxq : ∀ x ∈ xs, x.level ≤ q.level := fun x hx =>
      hcross x hx q (by simp)
    by_cases hq : q.level ≤ p.level
    · have hall : ∀ x ∈ xs ++ [q], (fun r => decide (r.level ≤ p.level)) x = true := by
        intro x hx
        rcases List.mem_append.1 hx with hx1 | hx1
        · simpa using Nat.le_trans (hxq x hx1) hq
        · simp at hx1
          subst hx1
          simpa using hq
      have htake : (xs ++ [q]).takeWhile (fun r => r.level ≤ p.level) = xs ++ [q] :=
        List.takeWhile_eq_self_iff.2 hall
      have hdrop : (xs ++ [q]).dropWhile (fun r => r.level ≤ p.level) = [] :=
        List.dropWhile_eq_nil_iff.2 fun x hx => by simpa using hall x hx
      rw [htake, hdrop]
      show ((xs ++ [q]).insertIdx (addLocRev p.level (xs ++ [q]).reverse) p) = _
      have hrev : (xs ++ [q]).reverse = q :: xs.reverse := by simp
      rw [hrev]
      simp only [addLocRev, if_pos hq, List.length_reverse]
      have hlen : xs.length + 1 = (xs ++ [q]).length := by simp
      rw [hlen, List.insertIdx_length_self]
    · have hqf : (fun r : PassNode => decide (r.level ≤ p.level)) q = false := by
        simpa using hq
      have htake := takeWhile_append_last (fun r : PassNode => decide (r.level ≤ p.level)) xs q hqf
      have hdrop := dropWhile_append_last (fun r : PassNode => decide (r.level ≤ p.level)) xs q hqf
      rw [htake, hdrop]
      show ((xs ++ [q]).insertIdx (addLocRev p.level (xs ++ [q]).reverse) p) = _
      have hrev : (xs ++ [q]).reverse = q :: xs.reverse := by simp
      rw [hrev]
      simp only [addLocRev, if_neg hq]
      rw [insertIdx_append_left p _ xs [q]
        (by simpa using addLocRev_le p.level xs.reverse)]
      rw [show xs.insertIdx (addLocRev p.level xs.reverse) p = addPass xs p from rfl]
      rw [ih hxs]
      simp

/-- Helper: inserting a pass into a level-sorted list keeps it sorted. -/
lemma addPass_sorted (ps : List PassNode) (p : PassNode) (hs : LevelSorted ps) :
    LevelSorted (addPass ps p) := by
  rw [addPass_eq ps p hs]
  refine List.pairwise_append.2 ⟨?_, ?_, ?_⟩
  · exact hs.sublist (List.takeWhile_sublist _)
  · refine List.pairwise_cons.2 ⟨?_, hs.sublist (List.dropWhile_sublist _)⟩
    intro b hb
    exact Nat.le_of_lt (mem_dropWhile_gt p.level ps hs b hb)
  · intro a ha b hb
    have hap : a.level ≤ p.level := by
      simpa using List.mem_takeWhile_imp ha
    rcases List.mem_cons.1 hb with rfl | hb2
    · exact hap
    · exact Nat.le_of_lt (Nat.lt_of_le_of_lt hap
        (mem_dropWhile_gt p.level ps hs b hb2))

/-- C8: a pass created with no parents has level 0; a pass created with
parents has level `1 + max(parent levels)`; and the insertion performed by
`gfx_renderer_add` places a new pass directly after every pass of level not
above its own — so the linear pass list stays sorted by non-decreasing
level, existing passes keep their relative order, and passes of equal level
stand in the order they were added. -/
theorem pass_level_sorted_insertion (parents : List Nat) (ps : List PassNode)
    (p : PassNode) (hs : LevelSorted ps) (hp : parents ≠ []) :
    createLevel [] = 0 ∧
    createLevel parents = 1 + parents.foldl Nat.max 0 ∧
    addPass ps p = ps.takeWhile (fun q => q.level ≤ p.level) ++
      p :: ps.dropWhile (fun q => q.level ≤ p.level) ∧
    LevelSorted (addPass ps p) :=
  ⟨rfl, createLevel_eq parents hp, addPass_eq ps p hs, addPass_sorted ps p hs⟩

/-- Witness for C8 at a concrete input: parents of levels 2 and 0 give level
3; inserting a level-1 pass (tag 14) into a sorted list places it after the
existing level-1 passes (tags 11, 12) and before the level-2 pass. -/
theorem pass_level_sorted_insertion_witness :
    createLevel [2, 0] = 3 ∧
    addPass [⟨0, 10⟩, ⟨1, 11⟩, ⟨1, 12⟩, ⟨2, 13⟩] ⟨1, 14⟩ =
      [⟨0, 10⟩, ⟨1, 11⟩, ⟨1, 12⟩, ⟨1, 14⟩, ⟨2, 13⟩] ∧
    LevelSorted (addPass [⟨0, 10⟩, ⟨1, 11⟩, ⟨1, 12⟩, ⟨2, 13⟩] ⟨1, 14⟩) := by
  have h := pass_level_sorted_insertion [2, 0]
    [⟨0, 10⟩, ⟨1, 11⟩, ⟨1, 12⟩, ⟨2, 13⟩] ⟨1, 14⟩ (by decide) (by decide)
  exact ⟨h.2.1.trans (by decide), h.2.2.1.trans (by decide), h.2.2.2⟩

/-- Helper: recycling never touches the immutable table itself. -/
lemma recycleElemFx_immutable (st : PoolState) (l : Nat) (e : PoolElem) :
    (recycleElemFx st l e).immutable = st.immutable := by
  simp only [recycleElemFx]
  split
  · rfl
  · rfl

/-- Helper: recycling never touches the subordinate table itself. -/
lemma recycleElemFx_subMutable (st : PoolState) (l : Nat) (e : PoolElem) :
    (recycleElemFx st l e).subMutable = st.subMutable := by
  simp only [recycleElemFx]
  split
  · rfl
  · rfl

/-- Helper: the table returned by the recycle walk is the table without the
matching entries. -/
lemma recycleMatches_fst (key : HashKey) :
    ∀ (l : List (HashKey × PoolElem)) (st : PoolState),
      (recycleMatches key l st).1 = l.filter fun p => p.1 ≠ key := by
  intro l
  induction l with
  | nil => intro st; rfl
  | cons a t ih =>
    intro st
    obtain ⟨k, e⟩ := a
    by_cases h : k = key
    · simp [recycleMatches, h, ih]
    · simp [recycleMatches, h, ih]

/-- Helper: the recycle walk leaves the state's immutable table field. -/
lemma recycleMatches_immutable (key : HashKey) :
    ∀ (l : List (HashKey × PoolElem)) (st : PoolState),
      (recycleMatches key l st).2.immutable = st.immutable := by
  intro l
  induction l with
  | nil => intro st; rfl
  | cons a t ih =>
    intro st
    obtain ⟨k, e⟩ := a
    by_cases h : k = key
    · simp [recycleMatches, h, ih, recycleElemFx_immutable]
    · simp [recycleMatches, h, ih]

/-- Helper: the recycle walk leaves the state's subordinate table field. -/
lemma recycleMatches_subMutable (key : HashKey) :
    ∀ (l : List (HashKey × PoolElem)) (st : PoolState),
      (recycleMatches key l st).2.subMutable = st.subMutable := by
  intro l
  induction l with
  | nil => intro st; rfl
  | cons a t ih =>
    intro st
    obtain ⟨k, e⟩ := a
    by_cases h : k = key
    · simp [recycleMatches, h, ih, recycleElemFx_subMutable]
    · simp [recycleMatches, h, ih]

/-- Helper: a table with the key filtered out yields no search hit. -/
lemma mapSearch_filter_ne (key : HashKey) (l : List (HashKey × PoolElem)) :
    mapSearch key (l.filter fun p => p.1 ≠ key) = none := by
  have h : List.find? (fun p => decide (p.1 = key))
      (l.filter fun p => p.1 ≠ key) = none := by
    rw [List.find?_eq_none]
    intro p hp
    have hne := (List.mem_filter.1 hp).2
    simp at hne ⊢
    exact hne
  simp [mapSearch, h]

/-- Helper: when neither structural table holds the key, `_gfx_pool_get`
inserts whatever element it returns into the subordinate's table under the
full composed key. -/
lemma poolGet_mem_subMutable (st : PoolState) (key : HashKey)
    (h1 : mapSearch key st.immutable = none)
    (h2 : mapSearch key st.subMutable = none) :
    (key, (poolGet st key).1) ∈ ((poolGet st key).2).subMutable := by
  unfold poolGet
  rw [h1, h2]
  rcases hrec : recSearch key.layout st.recycled with _ | e0
  · rcases hsb : st.subBlock with _ | b
    · rcases hfb : st.freeBlocks with _ | ⟨b, rest⟩
      · simp
      · simp
    · simp
  · simp

/-- C2 counterexample: the claim states that a `get` with the same composed
key after `recycle(key)` does not return the previously returned
descriptor-set handle. At this concrete run, two sets are allocated from one
block; recycling the first set's key moves its element into the recycled
table re-keyed by the set-layout handle alone (the first bytes of the
composed key), and the next `get` with the very same composed key finds that
element there and returns the same handle (set 0 of block 0). -/
theorem pool_recycle_same_key_cex :
    (poolGet ⟨[], [], [], [], none, [], 0, 0⟩ ⟨5, [1]⟩).1 = ⟨0, 0⟩ ∧
    (poolRecycle
      (poolGet ((poolGet ⟨[], [], [], [], none, [], 0, 0⟩ ⟨5, [1]⟩).2)
        ⟨5, [2]⟩).2 ⟨5, [1]⟩).recycled = [(5, ⟨0, 0⟩)] ∧
    (poolGet
      (poolRecycle
        (poolGet ((poolGet ⟨[], [], [], [], none, [], 0, 0⟩ ⟨5, [1]⟩).2)
          ⟨5, [2]⟩).2 ⟨5, [1]⟩) ⟨5, [1]⟩).1 = ⟨0, 0⟩ := by
  decide

/-- C2 (amended): after `recycle(key)` the previously returned element is no
longer stored under `key` in the immutable table or the subordinate's
mutable table; a subsequent `get` with the same key may nevertheless return
the same descriptor-set handle (found in the recycled table via the
set-layout prefix of the key), and whatever element that `get` returns has
been (re-)inserted into the subordinate's mutable table under `key`. -/
theorem pool_recycle_get_amended (st : PoolState) (key : HashKey) :
    mapSearch key (poolRecycle st key).immutable = none ∧
    mapSearch key (poolRecycle st key).subMutable = none ∧
    ∀ e st2, poolGet (poolRecycle st key) key = (e, st2) →
      (key, e) ∈ st2.subMutable := by
  have h1 : (poolRecycle st key).immutable =
      (unclaimBlocks st).immutable.filter fun p => p.1 ≠ key := by
    simp only [poolRecycle]
    rw [recycleMatches_fst, recycleMatches_immutable]
  have h2 : (poolRecycle st key).subMutable =
      (unclaimBlocks st).subMutable.filter fun p => p.1 ≠ key := by
    simp only [poolRecycle]
    rw [recycleMatches_subMutable, recycleMatches_fst]
  have hs1 : mapSearch key (poolRecycle st key).immutable = none := by
    rw [h1]; exact mapSearch_filter_ne key _
  have hs2 : mapSearch key (poolRecycle st key).subMutable = none := by
    rw [h2]; exact mapSearch_filter_ne key _
  refine ⟨hs1, hs2, fun e st2 hget => ?_⟩
  have hmem := poolGet_mem_subMutable (poolRecycle st key) key hs1 hs2
  rw [hget] at hmem
  simpa using hmem

/-- Witness for C2's amended statement at a concrete input: the `get` after
the recycle re-inserts the returned element under the full composed key into
the subordinate's mutable table. -/
theorem pool_recycle_get_amended_witness :
    ((⟨5, [1]⟩ : HashKey), (⟨0, 0⟩ : PoolElem)) ∈
      ((poolGet
        (poolRecycle
          (poolGet ((poolGet ⟨[], [], [], [], none, [], 0, 0⟩ ⟨5, [1]⟩).2)
            ⟨5, [2]⟩).2 ⟨5, [1]⟩) ⟨5, [1]⟩).2).subMutable := by
  have h := pool_recycle_get_amended
    (poolGet ((poolGet ⟨[], [], [], [], none, [], 0, 0⟩ ⟨5, [1]⟩).2)
      ⟨5, [2]⟩).2 ⟨5, [1]⟩
  exact h.2.2 _ _ rfl

/-- Helper: the stored blob is the header shape with the total length in the
size field and the hash of the size-patched, hash-zeroed blob in the hash
field (pure computation: both overwrites land on the concrete header
prefix). -/
lemma cacheStore_eq_blob (hashFn : List Nat → Nat) (dev : DeviceProps)
    (ptrSize : Nat) (vkData : List Nat) :
    cacheStore hashFn dev ptrSize vkData =
      storeHeaderBlob dev ptrSize vkData
        (storeHeaderBlob dev ptrSize vkData 0 0).length
        (hashFn (storeHeaderBlob dev ptrSize vkData
          (storeHeaderBlob dev ptrSize vkData 0 0).length 0)) := by
  rfl

/-- Helper: the blob length is 48 plus the opaque payload, whatever the size
and hash fields hold. -/
lemma storeHeaderBlob_length (dev : DeviceProps) (ptrSize : Nat)
    (vkData : List Nat) (hu : dev.uuid.length = 16) (size hash : Nat) :
    (storeHeaderBlob dev ptrSize vkData size hash).length =
      headerSize + vkData.length := by
  simp [storeHeaderBlob, le32, le64, hu, headerSize]
  omega

/-- C3: the stored pipeline-cache blob is packed with no padding: 4-byte
little-endian magic `0xFF60AF14` at offset 0, 4-byte `dataSize` equal to the
total blob length at offset 4, 8-byte `dataHash` at offset 8 equal to the
hash of the entire blob with the hash field zeroed, then `vendorID`,
`deviceID`, `driverVersion`, `driverABI = sizeof(void*)` (4 bytes each), the
16-byte UUID at offset 32 and the opaque Vulkan data from offset 48; and
zeroing the size and hash fields of the result recovers the initially
assembled blob (zeros first, then size, then hash). -/
theorem cacheStore_blob_layout (hashFn : List Nat → Nat) (dev : DeviceProps)
    (ptrSize : Nat) (vkData : List Nat) (hu : dev.uuid.length = 16) :
    (cacheStore hashFn dev ptrSize vkData).length = headerSize + vkData.length ∧
    (cacheStore hashFn dev ptrSize vkData).take 4 = le32 HEADER_MAGIC ∧
    ((cacheStore hashFn dev ptrSize vkData).drop 4).take 4 =
      le32 (cacheStore hashFn dev ptrSize vkData).length ∧
    ((cacheStore hashFn dev ptrSize vkData).drop 8).take 8 =
      le64 (hashFn (overwrite (cacheStore hashFn dev ptrSize vkData) 8 (le64 0))) ∧
    ((cacheStore hashFn dev ptrSize vkData).drop 16).take 4 = le32 dev.vendorID ∧
    ((cacheStore hashFn dev ptrSize vkData).drop 20).take 4 = le32 dev.deviceID ∧
    ((cacheStore hashFn dev ptrSize vkData).drop 24).take 4 = le32 dev.driverVersion ∧
    ((cacheStore hashFn dev ptrSize vkData).drop 28).take 4 = le32 ptrSize ∧
    ((cacheStore hashFn dev ptrSize vkData).drop 32).take 16 = dev.uuid ∧
    (cacheStore hashFn dev ptrSize vkData).drop headerSize = vkData ∧
    overwrite (overwrite (cacheStore hashFn dev ptrSize vkData) 4 (le32 0)) 8
        (le64 0) = storeHeaderBlob dev ptrSize vkData 0 0 := by
  have hz8 : ∀ size hash, overwrite (storeHeaderBlob dev ptrSize vkData size hash)
      8 (le64 0) = storeHeaderBlob dev ptrSize vkData size 0 := fun _ _ => rfl
  have hz4 : ∀ size hash, overwrite (storeHeaderBlob dev ptrSize vkData size hash)
      4 (le32 0) = storeHeaderBlob dev ptrSize vkData 0 hash := fun _ _ => rfl
  rw [cacheStore_eq_blob]
  rw [storeHeaderBlob_length dev ptrSize vkData hu,
    storeHeaderBlob_length dev ptrSize vkData hu]
  rw [hz8, hz4, hz8]
  refine ⟨rfl, rfl, rfl, rfl, rfl, rfl, rfl, rfl, ?_, ?_, rfl⟩
  · show (dev.uuid ++ vkData).take 16 = dev.uuid
    exact List.take_left' hu
  · show (dev.uuid ++ vkData).drop 16 = vkData
    exact List.drop_left' hu

/-- Witness for C3 at a concrete input: a 2-byte payload yields a 50-byte
blob with the documented field layout. -/
theorem cacheStore_blob_layout_witness :
    (cacheStore (fun l => l.length) ⟨1, 2, 3, List.replicate 16 9⟩ 8 [7, 7]).length
      = headerSize + 2 ∧
    ((cacheStore (fun l => l.length) ⟨1, 2, 3, List.replicate 16 9⟩ 8 [7, 7]).drop 4).take 4
      = le32 50 ∧
    (cacheStore (fun l => l.length) ⟨1, 2, 3, List.replicate 16 9⟩ 8 [7, 7]).drop 32
      = List.replicate 16 9 ++ [7, 7] := by
  have h := cacheStore_blob_layout (fun l => l.length)
    ⟨1, 2, 3, List.replicate 16 9⟩ 8 [7, 7] (by decide)
  refine ⟨h.1.trans (by decide), h.2.2.1.trans ?_, by decide⟩
  rw [h.1]
  decide

/-- C4: the pipeline-cache load merges the opaque payload into the live
cache exactly when the blob has a complete header and every header field
matches: the magic, the total length in `dataSize`, the hash (over the blob
with the hash field zeroed) in `dataHash`, the device's vendor/device id and
driver version, the pointer-size ABI tag and the device UUID; any mismatch
or short blob is rejected without merging. -/
theorem cacheLoad_validates (hashFn : List Nat → Nat) (dev : DeviceProps)
    (ptrSize : Nat) (data p : List Nat) :
    cacheLoad hashFn dev ptrSize data = some p ↔
      (headerSize ≤ data.length ∧
       rd32 data 0 = HEADER_MAGIC ∧
       rd32 data 4 = data.length ∧
       rd64 data 8 = hashFn (overwrite data 8 (le64 0)) ∧
       rd32 data 16 = dev.vendorID ∧
       rd32 data 20 = dev.deviceID ∧
       rd32 data 24 = dev.driverVersion ∧
       rd32 data 28 = ptrSize ∧
       (data.drop 32).take 16 = dev.uuid ∧
       p = data.drop headerSize) := by
  unfold cacheLoad
  split
  · constructor
    · intro h
      exact absurd h (by simp)
    · intro h
      omega
  · split
    · rename_i hlen hcond
      constructor
      · intro h
        have hp : data.drop headerSize = p := by
          simpa using h
        exact ⟨by omega, hcond.1, hcond.2.1, hcond.2.2.1, hcond.2.2.2.1,
          hcond.2.2.2.2.1, hcond.2.2.2.2.2.1, hcond.2.2.2.2.2.2.1,
          hcond.2.2.2.2.2.2.2, hp.symm⟩
      · intro h
        simp [h.2.2.2.2.2.2.2.2.2]
    · rename_i hlen hcond
      constructor
      · intro h
        exact absurd h (by simp)
      · intro h
        exact absurd ⟨h.2.1, h.2.2.1, h.2.2.2.1, h.2.2.2.2.1, h.2.2.2.2.2.1,
          h.2.2.2.2.2.2.1, h.2.2.2.2.2.2.2.1, h.2.2.2.2.2.2.2.2.1⟩ hcond

end Groufix
